import Mathlib

/-!
JobPortal: the job context (`src/context/JobContext.jsx`) and the search form
(`src/components/Jobs/JobSearch.jsx`)

A shallow embedding of `fetchJobs`, `searchJobs`, `applyToJob` and `handleSearch`.
React state (`jobs`, `loading`, `lastDoc`, `hasMore`) is an explicit `Session` value that
every operation takes and returns; the Firestore collections are an explicit `Db` value.
A thrown `Error` is an `Except.error` carrying the message.
-/

namespace JobPortal

/-! ## Data model -/

deriving instance DecidableEq for Except

/-- Field values stored in a document. -/
inductive Val where
  | str (s : String)
  | num (n : Nat)
  | bool (b : Bool)
  | timestamp (t : Nat)
  deriving DecidableEq, Repr

/-- A document of the `jobs` collection: its document id (`doc.id`) and its data
(`doc.data()`).  A field that the document does not have is `none`; `storedId` is a data
field that is itself called `id`.  The same type holds the objects
`({ id: doc.id, ...doc.data() })` of the result list, see `toJobObject`. -/
structure Job where
  id : String
  storedId : Option String
  title : Option String
  companyId : Option String
  companyName : Option String
  description : Option String
  skills : Option (List String)
  location : Option String
  jobType : Option String
  experienceLevel : Option String
  industry : Option String
  salaryRange : Option String
  postedAt : Nat
  isActive : Bool
  applicationCount : Option Nat
  applicationsCount : Option Nat
  deriving DecidableEq, Repr

/-- The object `({ id: doc.id, ...doc.data() })` built from a snapshot entry: the spread
comes after `id`, so a data field called `id` takes the place of the document id. -/
def toJobObject (doc : Job) : Job :=
  { doc with id := doc.storedId.getD doc.id }

/-- A plain JS object with string keys, in insertion order. -/
abbrev Record := List (String × Val)

/-- Property read `r[k]`; `none` is `undefined`. -/
def Record.get : Record → String → Option Val
  | [], _ => none
  | (k', v') :: r, k => if k' = k then some v' else Record.get r k

/-- Property write `r[k] = v`: an existing key keeps its place and takes the new value, a
new key is added at the end.  An object literal `{ ...a, k: v }` is `Record.set a k v`. -/
def Record.set : Record → String → Val → Record
  | [], k, v => [(k, v)]
  | (k', v') :: r, k, v => if k' = k then (k, v) :: r else (k', v') :: Record.set r k v

/-- The two Firestore collections the context uses; the store holds no subcollection. -/
structure Db where
  jobs : List Job
  applications : List Record
  deriving DecidableEq, Repr

/-- The fields of a job document that a query constraint names. -/
inductive Field where
  | isActive | location | jobType | experienceLevel | industry | postedAt
  deriving DecidableEq, Repr

inductive Direction where
  | asc | desc
  deriving DecidableEq, Repr

/-- The query constraints built with `where(f, '==', v)`, `orderBy(f, dir)`, `limit(n)`
and `startAfter(doc)`. -/
inductive Constraint where
  | whereEq (field : Field) (value : Val)
  | orderBy (field : Field) (dir : Direction)
  | limit (n : Nat)
  | startAfter (doc : Job)
  deriving DecidableEq, Repr

/-- The value of a named field of a job document. -/
def Job.field (j : Job) : Field → Option Val
  | .isActive => some (.bool j.isActive)
  | .location => j.location.map .str
  | .jobType => j.jobType.map .str
  | .experienceLevel => j.experienceLevel.map .str
  | .industry => j.industry.map .str
  | .postedAt => some (.timestamp j.postedAt)

/-- The `filters` argument of `fetchJobs` and `searchJobs`; a key the object does not have
is `none` (the default argument `{}` has none of them). -/
structure Filters where
  location : Option String
  jobType : Option String
  experienceLevel : Option String
  industry : Option String
  salaryRange : Option String
  deriving DecidableEq, Repr

/-- The React state of `JobProvider`. -/
structure Session where
  jobs : List Job
  loading : Bool
  lastDoc : Option Job
  hasMore : Bool
  deriving DecidableEq, Repr

/-- The initial state: `useState([])`, `useState(false)`, `useState(null)`,
`useState(true)`. -/
def Session.initial : Session :=
  { jobs := [], loading := false, lastDoc := none, hasMore := true }

/-! ## The document store -/

/-- What the store compares documents by: the rank of the value type, a number, a text,
and the document id, compared in that order. -/
abbrev SortKey := Nat ×ₗ Nat ×ₗ List Char ×ₗ List Char

/-- The place of a value among the values of a field: booleans before numbers before
timestamps before strings; within a type by value. -/
def valKey (v : Val) (id : String) : SortKey :=
  match v with
  | .bool b => toLex (1, toLex (b.toNat, toLex ([], id.data)))
  | .num n => toLex (2, toLex (n, toLex ([], id.data)))
  | .timestamp t => toLex (3, toLex (t, toLex ([], id.data)))
  | .str s => toLex (4, toLex (0, toLex (s.data, id.data)))

/-- The sort key of a document under an ordering field: the value of that field, then
the document id; with no ordering field the document id alone. -/
def docKey (f : Option Field) (j : Job) : SortKey :=
  match f.bind j.field with
  | some v => valKey v j.id
  | none => toLex (0, toLex (0, toLex ([], j.id.data)))

/-- The ordering a query asks for: the field and direction of its `orderBy` constraint;
without one, ascending document id. -/
def orderOf : List Constraint → Option Field × Direction
  | [] => (none, .asc)
  | .orderBy f d :: _ => (some f, d)
  | _ :: cs => orderOf cs

/-- Doc `a` stands strictly before doc `b` in the ordering `o`: by the ordering field in
the direction asked, documents with the same value by document id in the same
direction. -/
def docBefore (o : Option Field × Direction) (a b : Job) : Prop :=
  if o.2 = .desc then docKey o.1 b < docKey o.1 a else docKey o.1 a < docKey o.1 b

instance (o : Option Field × Direction) : DecidableRel (docBefore o) :=
  fun a b => by unfold docBefore; infer_instance

/-- Doc `a` stands before doc `b` or at its place in the ordering `o`. -/
def docOrder (o : Option Field × Direction) (a b : Job) : Prop :=
  if o.2 = .desc then docKey o.1 b ≤ docKey o.1 a else docKey o.1 a ≤ docKey o.1 b

instance (o : Option Field × Direction) : DecidableRel (docOrder o) :=
  fun a b => by unfold docOrder; infer_instance

instance (o : Option Field × Direction) : IsTotal Job (docOrder o) where
  total a b := by
    unfold docOrder
    split
    · exact le_total _ _
    · exact le_total _ _

instance (o : Option Field × Direction) : IsTrans Job (docOrder o) where
  trans a b c := by
    unfold docOrder
    split
    · exact fun h1 h2 => le_trans h2 h1
    · exact fun h1 h2 => le_trans h1 h2

/-- An equality constraint holds of a document; the other constraints do not select. -/
def whereHolds (j : Job) : Constraint → Bool
  | .whereEq f v => decide (j.field f = some v)
  | _ => true

/-- A document has the ordering field; a query ordered by a field returns only documents
that have it. -/
def hasOrderField (f : Option Field) (j : Job) : Bool :=
  match f with
  | some g => (j.field g).isSome
  | none => true

/-- The resume-after cursor of a query: the document of its `startAfter` constraint. -/
def cursorOf : List Constraint → Option Job
  | [] => none
  | .startAfter d :: _ => some d
  | _ :: cs => cursorOf cs

/-- The page size of a query: the number of its `limit` constraint. -/
def limitOf : List Constraint → Option Nat
  | [] => none
  | .limit n :: _ => some n
  | _ :: cs => limitOf cs

/-- The documents of a collection that satisfy every equality filter of a query, in the
ordering the query asks for. -/
def orderedMatches (coll : List Job) (cs : List Constraint) : List Job :=
  (coll.filter (fun j => cs.all (whereHolds j) && hasOrderField (orderOf cs).1 j)).insertionSort
    (docOrder (orderOf cs))

/-- Modelled from the spec: the Document Store's
`query(collectionName, equalityFilters, orderBy, limit, resumeAfterCursor?)`, which this
repository consumes and does not implement.  The result holds exactly the documents that
satisfy every equality filter, in the ordering the `orderBy` constraint asks for (made
total by the document id so that a cursor has a position); with a cursor the result
resumes strictly after the cursor's position in that ordering; with a limit it is cut to
that many documents. -/
def runQuery (coll : List Job) (cs : List Constraint) : List Job :=
  let ordered := orderedMatches coll cs
  let resumed :=
    match cursorOf cs with
    | some c => ordered.filter (fun j => decide (docBefore (orderOf cs) c j))
    | none => ordered
  match limitOf cs with
  | some n => resumed.take n
  | none => resumed

/-- The store's `getDocs` on the `jobs` collection of `db`; this store never fails. -/
def getDocs (db : Db) (cs : List Constraint) : Except String (List Job) :=
  .ok (runQuery db.jobs cs)

/-- Whether a path has two slashes in a row. -/
def hasDoubleSlash : List Char → Bool
  | '/' :: '/' :: _ => true
  | _ :: cs => hasDoubleSlash cs
  | [] => false

/-- The reference `doc(db, 'jobs', jobId)` of the Firestore client: the segments that
`jobId` adds below `jobs`.  A `jobId` with `//` is refused; it is split at `/` and empty
segments are dropped; the path must then have an even number of segments, `jobs`
included. -/
def jobDocRef (jobId : String) : Except String (List String) :=
  if hasDoubleSlash jobId.data then .error "Paths must not contain // in them."
  else
    let segments := ((jobId.data.splitOn '/').filter (fun s => s ≠ [])).map String.mk
    if (1 + segments.length) % 2 = 0 then .ok segments
    else .error "Document references must have an even number of segments"

/-- Modelled from the spec: the Document Store's `insert(collectionName, record)`, here
the store's `addDoc` on the `applications` collection; the generated id is not kept. -/
def addDoc (db : Db) (application : Record) : Db :=
  { db with applications := db.applications ++ [application] }

/-- Modelled from the spec: the Document Store's `getById(collectionName, id)`, here the
store's `getDoc` on a reference below `jobs`; `none` when `exists()` is false.  A
reference of one segment names a document of the `jobs` collection; a longer one names a
document of a subcollection, of which the store has none. -/
def getDoc (db : Db) (ref : List String) : Option Job :=
  match ref with
  | [id] => db.jobs.find? (fun j => decide (j.id = id))
  | _ => none

/-- Modelled from the spec: the Document Store's
`updateFields(collectionName, id, partialRecord)`, here the store's
`updateDoc(jobRef, { applicationsCount: n })`: only the named field of the document the
reference names is written. -/
def updateDoc (db : Db) (ref : List String) (n : Nat) : Db :=
  match ref with
  | [id] => { db with jobs := db.jobs.map (fun j =>
      if j.id = id then { j with applicationsCount := some n } else j) }
  | _ => db

/-- The number of times `n` must be halved to come below `2 ^ 53`. -/
def excessBits : Nat → Nat → Nat
  | 0, _ => 0
  | fuel + 1, n => if n < 2 ^ 53 then 0 else 1 + excessBits fuel (n / 2)

/-- The JS number nearest to the natural number `n`: numbers are IEEE doubles with 53
significant bits, ties going to the even significand (for `n` below `2 ^ 1024`). -/
def toNumber (n : Nat) : Nat :=
  if n ≤ 2 ^ 53 then n
  else
    let e := excessBits 1024 n
    let q := n / 2 ^ e
    let r := n % 2 ^ e
    let half := 2 ^ (e - 1)
    if r < half then q * 2 ^ e
    else if half < r then (q + 1) * 2 ^ e
    else if q % 2 = 0 then q * 2 ^ e
    else (q + 1) * 2 ^ e

/-- The JS sum `a + b` of two numbers that hold natural numbers. -/
def jsAdd (a b : Nat) : Nat :=
  toNumber (a + b)

/-! ## `fetchJobs` -/

/-- The guard `filters.k && filters.k !== 'all'` with its push: a present, non-empty
value other than `'all'` gives one equality constraint, anything else none. -/
def filterConstraint (f : Field) (v : Option String) : List Constraint :=
  match v with
  | some s => if s ≠ "" ∧ s ≠ "all" then [.whereEq f (.str s)] else []
  | none => []

/-- The `constraints` array of `fetchJobs`. -/
def fetchConstraints (filters : Filters) (loadMore : Bool) (lastDoc : Option Job) :
    List Constraint :=
  [.whereEq .isActive (.bool true)]
    ++ filterConstraint .location filters.location
    ++ filterConstraint .jobType filters.jobType
    ++ filterConstraint .experienceLevel filters.experienceLevel
    ++ filterConstraint .industry filters.industry
    ++ [.orderBy .postedAt .desc]
    ++ [.limit 10]
    ++ (match loadMore, lastDoc with
        | true, some d => [.startAfter d]
        | _, _ => [])

/-- The function `fetchJobs(filters, loadMore)`, over the store's `getDocs`.  It returns
the value returned (or the error thrown) and the state left behind. -/
def fetchJobs (getDocs : List Constraint → Except String (List Job)) (s : Session)
    (filters : Filters) (loadMore : Bool) : Except String (List Job) × Session :=
  let s1 := { s with loading := true }
  match getDocs (fetchConstraints filters loadMore s.lastDoc) with
  | .ok docs =>
    let jobList := docs.map toJobObject
    let s2 := if loadMore then { s1 with jobs := s1.jobs ++ jobList }
              else { s1 with jobs := jobList }
    let s3 := { s2 with lastDoc := docs.getLast? }
    let s4 := { s3 with hasMore := decide (docs.length = 10) }
    (.ok jobList, { s4 with loading := false })
  | .error e => (.error e, { s1 with loading := false })

/-- A fresh fetch followed by `n` load-more fetches under the same filters against the
same store content: the state after the last of them. -/
def pagingRun (db : Db) (filters : Filters) (s : Session) : Nat → Session
  | 0 => (fetchJobs (getDocs db) s filters false).2
  | n + 1 => (fetchJobs (getDocs db) (pagingRun db filters s n) filters true).2

/-- The documents of the store that satisfy the equality constraints of
`fetchJobs(filters, _)`, in the order the collection lists them. -/
def matching (db : Db) (filters : Filters) : List Job :=
  db.jobs.filter (fun j => (fetchConstraints filters false none).all (whereHolds j))

/-- The matching documents in the ordering the query of `fetchJobs(filters, _)` asks
for: what the pages of a paging session are cut from. -/
def matchingOrdered (db : Db) (filters : Filters) : List Job :=
  orderedMatches db.jobs (fetchConstraints filters false none)

/-- The state of a paging session over the ordered documents `L`: the result list is
built from an initial part of `L`, and a held cursor is the last document of that
part. -/
def Paged (L : List Job) (s : Session) : Prop :=
  ∃ shown rest, shown ++ rest = L ∧ s.jobs = shown.map toJobObject
    ∧ ∀ c, s.lastDoc = some c → ∃ init, shown = init ++ [c]

/-! ## `searchJobs` -/

/-- The method `String.prototype.includes`: `t` occurs in `s` as a contiguous run.  (For
strings of whole code points a run of UTF-16 units is a run of code points.) -/
def includes (s t : String) : Bool :=
  decide (t.data <:+: s.data)

/-- Truthiness of a value that is `undefined` or a boolean. -/
def truthy : Option Bool → Bool
  | some b => b
  | none => false

/-- The callback of `jobList.filter` in `searchJobs`, over the engine's
`String.prototype.toLowerCase`.  An optional chain `x?.m()` on an absent `x` is
`undefined` (`none`) and evaluates nothing further; `||` goes on to its right operand when
the left one is falsy. -/
def matchesSearch (toLowerCase : String → String) (searchLower : String) (job : Job) :
    Bool :=
  truthy (job.title.map (fun t => includes (toLowerCase t) searchLower)) ||
  truthy (job.companyName.map (fun t => includes (toLowerCase t) searchLower)) ||
  truthy (job.description.map (fun t => includes (toLowerCase t) searchLower)) ||
  truthy (job.skills.map (fun l => l.any (fun skill => includes (toLowerCase skill) searchLower)))

/-- The `constraints` array of `searchJobs`: only `location` and `jobType` are
forwarded, and there is no limit. -/
def searchConstraints (filters : Filters) : List Constraint :=
  [.whereEq .isActive (.bool true)]
    ++ filterConstraint .location filters.location
    ++ filterConstraint .jobType filters.jobType
    ++ [.orderBy .postedAt .desc]

/-- The function `searchJobs(searchTerm, filters)`, over the engine's
`String.prototype.toLowerCase` and the store's `getDocs`; an absent or empty `searchTerm`
is the empty string. -/
def searchJobs (toLowerCase : String → String)
    (getDocs : List Constraint → Except String (List Job)) (s : Session)
    (searchTerm : String) (filters : Filters) : Except String (List Job) × Session :=
  let s1 := { s with loading := true }
  match getDocs (searchConstraints filters) with
  | .ok docs =>
    let jobList := docs.map toJobObject
    let jobList :=
      if searchTerm ≠ "" then
        let searchLower := toLowerCase searchTerm
        jobList.filter (matchesSearch toLowerCase searchLower)
      else jobList
    (.ok jobList, { s1 with jobs := jobList, loading := false })
  | .error e => (.error e, { s1 with loading := false })

/-- The match of the search step in the spec's words, for a lowercasing function: one of
`title`, `companyName`, `description`, lowercased, contains the lowercased term, or some
entry of `skills`, lowercased, contains it.  An absent field has nothing that could
contain the term. -/
def SpecMatches (toLowerCase : String → String) (term : String) (j : Job) : Prop :=
  (∃ t, (j.title = some t ∨ j.companyName = some t ∨ j.description = some t) ∧
      (toLowerCase term).data <:+: (toLowerCase t).data) ∨
  (∃ l, j.skills = some l ∧ ∃ skill ∈ l, (toLowerCase term).data <:+: (toLowerCase skill).data)

/-- Lowercasing of the letters A to Z, every other character left as it is: what
`String.prototype.toLowerCase` does to a string of ASCII characters. -/
def asciiLowerCase (s : String) : String :=
  String.mk (s.data.map Char.toLower)

/-- A string of ASCII characters. -/
def IsAscii (s : String) : Prop :=
  ∀ c ∈ s.data, c.toNat < 128

instance (s : String) : Decidable (IsAscii s) := by unfold IsAscii; infer_instance

/-- A lowercasing function agrees with `String.prototype.toLowerCase` on ASCII strings. -/
def LowersAscii (toLowerCase : String → String) : Prop :=
  ∀ s, IsAscii s → toLowerCase s = asciiLowerCase s

/-! ## `handleSearch` (`JobSearch.jsx`) -/

/-- White space and line terminators, the characters `String.prototype.trim` strips. -/
def isJsWhiteSpace (c : Char) : Bool :=
  c.toNat ∈ [0x9, 0xA, 0xB, 0xC, 0xD, 0x20, 0xA0, 0x1680, 0x2028, 0x2029, 0x202F, 0x205F,
    0x3000, 0xFEFF] || (0x2000 ≤ c.toNat && c.toNat ≤ 0x200A)

/-- Truthiness of `searchTerm.trim()`: some character of the term is not white space. -/
def trimTruthy (searchTerm : String) : Bool :=
  searchTerm.data.any (fun c => !isJsWhiteSpace c)

/-- The submit handler of the search form, with the context's `searchJobs` and
`fetchJobs`; an error is caught and logged, so only the state is left. -/
def handleSearch (toLowerCase : String → String)
    (getDocs : List Constraint → Except String (List Job)) (s : Session)
    (searchTerm : String) (filters : Filters) : Session :=
  if trimTruthy searchTerm then (searchJobs toLowerCase getDocs s searchTerm filters).2
  else (fetchJobs getDocs s filters false).2

/-! ## `applyToJob` -/

/-- The signed-in user of the auth context. -/
structure User where
  uid : String
  deriving DecidableEq, Repr

/-- The profile of the signed-in user. -/
structure Profile where
  userType : String
  firstName : String
  lastName : String
  email : String
  deriving DecidableEq, Repr

/-- What `useAuth()` yields; `none` is `null`. -/
structure Auth where
  currentUser : Option User
  userProfile : Option Profile
  deriving DecidableEq, Repr

/-- The object literal `application` of `applyToJob`; `now` is the time the server puts
in place of `serverTimestamp()`. -/
def applicationRecord (user : User) (profile : Profile) (now : Nat) (jobId : String)
    (applicationData : Record) : Record :=
  (((((applicationData.set "jobId" (.str jobId)).set "applicantId" (.str user.uid)).set
    "applicantName" (.str (profile.firstName ++ " " ++ profile.lastName))).set
    "applicantEmail" (.str profile.email)).set "appliedAt" (.timestamp now)).set
    "status" (.str "pending")

/-- The store calls of `applyToJob`, on the store content: `addDoc` on the
`applications` collection, `getDoc(doc(db, 'jobs', jobId))` (`none` when `exists()` is
false) and `updateDoc(doc(db, 'jobs', jobId), { applicationsCount: n })`.  Each either
fails with an error or succeeds; a call that fails leaves the store as it was. -/
structure ApplyStore where
  addDoc : Db → Record → Except String Db
  getDoc : Db → String → Except String (Option Job)
  updateDoc : Db → String → Nat → Except String Db

/-- The function `applyToJob(jobId, applicationData)`, over the store's calls: the value
returned (or the error thrown) and the store left behind.  The counter is read as a JS
number and `+ 1` is the JS sum. -/
def applyToJob (store : ApplyStore) (auth : Auth) (now : Nat) (db : Db) (jobId : String)
    (applicationData : Record) : Except String Bool × Db :=
  match auth.currentUser, auth.userProfile with
  | some user, some profile =>
    if profile.userType ≠ "jobSeeker" then (.error "Only job seekers can apply", db)
    else
      let application := applicationRecord user profile now jobId applicationData
      match store.addDoc db application with
      | .error e => (.error e, db)
      | .ok db1 =>
        match store.getDoc db1 jobId with
        | .error e => (.error e, db1)
        | .ok (some jobDoc) =>
          let currentCount := toNumber (jobDoc.applicationsCount.getD 0)
          match store.updateDoc db1 jobId (jsAdd currentCount 1) with
          | .error e => (.error e, db1)
          | .ok db2 => (.ok true, db2)
        | .ok none => (.ok true, db1)
  | _, _ => (.error "Only job seekers can apply", db)

/-- Modelled from the spec: a Document Store whose calls always go through, with the
reference rule of the Firestore client: `insert` adds the record, `getById` looks the
document up, `updateFields` writes the counter. -/
def modelStore : ApplyStore :=
  { addDoc := fun db r => .ok (addDoc db r),
    getDoc := fun db jobId =>
      match jobDocRef jobId with
      | .error e => .error e
      | .ok jobRef => .ok (getDoc db jobRef),
    updateDoc := fun db jobId n =>
      match jobDocRef jobId with
      | .error e => .error e
      | .ok jobRef => .ok (updateDoc db jobRef n) }

/-- Modelled from the spec: what the Document Store's calls do when they succeed.  An
insert adds exactly the record to `applications` and touches nothing else; a document
that `getDoc` returns is a document of the `jobs` collection; an update through the
reference of a document that `getDoc` returned writes only the counter of that
document. -/
def FollowsContract (store : ApplyStore) : Prop :=
  (∀ db r db1, store.addDoc db r = .ok db1 → db1 = addDoc db r)
    ∧ (∀ db jobId j, store.getDoc db jobId = .ok (some j) → j ∈ db.jobs)
    ∧ (∀ db jobId n db2 j, store.getDoc db jobId = .ok (some j) →
        store.updateDoc db jobId n = .ok db2 → db2 = updateDoc db [j.id] n)

/-! ## Concrete stores, filters and actors -/

/-- A job document with the given id, posting time, location and job type, active, with
no stored `id` field and none of the text fields. -/
def plainJob (id : String) (postedAt : Nat) (location jobType : Option String) : Job :=
  { id := id, storedId := none, title := none, companyId := none, companyName := none,
    description := none, skills := none, location := location, jobType := jobType,
    experienceLevel := none, industry := none, salaryRange := none, postedAt := postedAt,
    isActive := true, applicationCount := some 0, applicationsCount := none }

/-- The filter object `{}`. -/
def noFilters : Filters :=
  { location := none, jobType := none, experienceLevel := none, industry := none,
    salaryRange := none }

/-- The filter object `{ location: v }`. -/
def locationFilter (v : String) : Filters :=
  { noFilters with location := some v }

/-- The filter object `{ jobType: "full-time" }`. -/
def fullTimeFilter : Filters :=
  { noFilters with jobType := some "full-time" }

/-- A store with one active listing, located in Colombo. -/
def colomboDb : Db :=
  { jobs := [plainJob "j1" 5 (some "Colombo") (some "full-time")], applications := [] }

/-- A store with one listing whose counter stands at `2 ^ 53`. -/
def saturatedDb : Db :=
  { jobs := [{ plainJob "j1" 5 (some "Colombo") (some "full-time") with
               applicationsCount := some (2 ^ 53) }],
    applications := [] }

/-- A store with a Colombo listing posted at time 2 and a Kandy listing posted at time 1. -/
def twoCityDb : Db :=
  { jobs := [plainJob "a" 2 (some "Colombo") none, plainJob "b" 1 (some "Kandy") none],
    applications := [] }

/-- A store with 15 active full-time listings `a` to `o`, posted at times 100 to 114. -/
def fullTimeDb : Db :=
  { jobs := (List.range 15).map (fun i =>
      plainJob (String.mk [Char.ofNat (97 + i)]) (100 + i) none (some "full-time")),
    applications := [] }

/-- A listing titled "Senior Engineer" whose skills hold "React". -/
def engineerJob : Job :=
  { plainJob "e1" 9 (some "Colombo") (some "full-time") with
    title := some "Senior Engineer", skills := some ["React", "Node"] }

/-- A listing with a title and a description and no `skills` field. -/
def noSkillsJob : Job :=
  { plainJob "e2" 8 (some "Kandy") (some "part-time") with
    title := some "Accountant", description := some "Ledger work" }

/-- A listing with skills and none of `title`, `companyName`, `description`. -/
def skillsOnlyJob : Job :=
  { plainJob "e3" 7 (some "Galle") (some "contract") with skills := some ["Excel"] }

/-- A store holding the three listings above. -/
def searchDb : Db :=
  { jobs := [engineerJob, noSkillsJob, skillsOnlyJob], applications := [] }

/-- A signed-in job seeker. -/
def seekerAuth : Auth :=
  { currentUser := some { uid := "u1" },
    userProfile := some { userType := "jobSeeker", firstName := "Asha", lastName := "Perera",
                          email := "asha@example.com" } }

/-- A signed-in company. -/
def companyAuth : Auth :=
  { currentUser := some { uid := "c1" },
    userProfile := some { userType := "company", firstName := "", lastName := "",
                          email := "hr@example.com" } }

/-! ## Lemmas on the queries `fetchJobs` builds -/

theorem mem_filterConstraint {f : Field} {v : String} (h1 : v ≠ "") (h2 : v ≠ "all") :
    Constraint.whereEq f (.str v) ∈ filterConstraint f (some v) := by
  simp [filterConstraint, h1, h2]

theorem isActive_mem_fetchConstraints (filters : Filters) (loadMore : Bool)
    (lastDoc : Option Job) :
    Constraint.whereEq .isActive (.bool true) ∈ fetchConstraints filters loadMore lastDoc := by
  simp [fetchConstraints]

theorem whereHolds_str {o : Option String} {v : String}
    (h : (o.map Val.str) = some (Val.str v)) : o = some v := by
  cases o with
  | none => simp at h
  | some w => simpa using h

theorem mem_orderedMatches {coll : List Job} {cs : List Constraint} {d : Job}
    (h : d ∈ orderedMatches coll cs) : d ∈ coll ∧ ∀ c ∈ cs, whereHolds d c = true := by
  unfold orderedMatches at h
  have hmem := (List.perm_insertionSort (docOrder (orderOf cs)) _).mem_iff.mp h
  obtain ⟨h1, h2⟩ := List.mem_filter.mp hmem
  rw [Bool.and_eq_true] at h2
  exact ⟨h1, List.all_eq_true.mp h2.1⟩

theorem mem_runQuery {coll : List Job} {cs : List Constraint} {d : Job}
    (hd : d ∈ runQuery coll cs) : d ∈ orderedMatches coll cs := by
  unfold runQuery at hd
  simp only at hd
  have h1 : ∀ l : List Job, d ∈ (match limitOf cs with
      | some n => l.take n
      | none => l) → d ∈ l := by
    intro l hl
    cases hlim : limitOf cs with
    | none => simpa [hlim] using hl
    | some n => rw [hlim] at hl; exact List.mem_of_mem_take hl
  have h2 := h1 _ hd
  cases hcur : cursorOf cs with
  | none => simpa [hcur] using h2
  | some c0 => rw [hcur] at h2; exact List.mem_of_mem_filter h2

/-- The modelled store returns only documents that satisfy every constraint given. -/
theorem getDocs_sound (db : Db) (cs : List Constraint) (docs : List Job)
    (h : getDocs db cs = .ok docs) : ∀ d ∈ docs, ∀ c ∈ cs, whereHolds d c = true := by
  intro d hd c hc
  simp only [getDocs, Except.ok.injEq] at h
  subst h
  exact (mem_orderedMatches (mem_runQuery hd)).2 c hc

theorem cursorOf_filterConstraint_append (f : Field) (v : Option String)
    (cs : List Constraint) : cursorOf (filterConstraint f v ++ cs) = cursorOf cs := by
  unfold filterConstraint
  cases v with
  | none => rfl
  | some w => by_cases h : w ≠ "" ∧ w ≠ "all" <;> simp [h, cursorOf]

theorem limitOf_filterConstraint_append (f : Field) (v : Option String)
    (cs : List Constraint) : limitOf (filterConstraint f v ++ cs) = limitOf cs := by
  unfold filterConstraint
  cases v with
  | none => rfl
  | some w => by_cases h : w ≠ "" ∧ w ≠ "all" <;> simp [h, limitOf]

theorem orderOf_filterConstraint_append (f : Field) (v : Option String)
    (cs : List Constraint) : orderOf (filterConstraint f v ++ cs) = orderOf cs := by
  unfold filterConstraint
  cases v with
  | none => rfl
  | some w => by_cases h : w ≠ "" ∧ w ≠ "all" <;> simp [h, orderOf]

theorem fetchConstraints_eq (filters : Filters) (loadMore : Bool) (lastDoc : Option Job) :
    fetchConstraints filters loadMore lastDoc
      = Constraint.whereEq .isActive (.bool true) ::
        (filterConstraint .location filters.location ++
          (filterConstraint .jobType filters.jobType ++
            (filterConstraint .experienceLevel filters.experienceLevel ++
              (filterConstraint .industry filters.industry ++
                (Constraint.orderBy .postedAt .desc :: Constraint.limit 10 ::
                  (match loadMore, lastDoc with
                    | true, some d => [Constraint.startAfter d]
                    | _, _ => [])))))) := by
  simp [fetchConstraints]

/-- The cursor of the query `fetchJobs` issues: the held cursor on a load-more, none on a
fresh fetch. -/
theorem cursorOf_fetchConstraints (filters : Filters) (loadMore : Bool)
    (lastDoc : Option Job) :
    cursorOf (fetchConstraints filters loadMore lastDoc)
      = if loadMore then lastDoc else none := by
  rw [fetchConstraints_eq]
  simp only [cursorOf, cursorOf_filterConstraint_append]
  cases loadMore <;> cases lastDoc <;> simp [cursorOf]

/-- The query `fetchJobs` issues always has the limit 10. -/
theorem limitOf_fetchConstraints (filters : Filters) (loadMore : Bool)
    (lastDoc : Option Job) :
    limitOf (fetchConstraints filters loadMore lastDoc) = some 10 := by
  rw [fetchConstraints_eq]
  simp only [limitOf, limitOf_filterConstraint_append]

/-- The query `fetchJobs` issues always asks for descending `postedAt`. -/
theorem orderOf_fetchConstraints (filters : Filters) (loadMore : Bool)
    (lastDoc : Option Job) :
    orderOf (fetchConstraints filters loadMore lastDoc) = (some .postedAt, .desc) := by
  rw [fetchConstraints_eq]
  simp only [orderOf, orderOf_filterConstraint_append]

/-- The equality constraints of the query `fetchJobs` issues do not depend on
`loadMore` or on the cursor. -/
theorem all_fetchConstraints (filters : Filters) (loadMore : Bool) (lastDoc : Option Job)
    (j : Job) :
    (fetchConstraints filters loadMore lastDoc).all (whereHolds j)
      = (fetchConstraints filters false none).all (whereHolds j) := by
  unfold fetchConstraints
  cases loadMore <;> cases lastDoc <;> simp [List.all_append, whereHolds]

theorem orderedMatches_fetchConstraints (db : Db) (filters : Filters) (loadMore : Bool)
    (lastDoc : Option Job) :
    orderedMatches db.jobs (fetchConstraints filters loadMore lastDoc)
      = matchingOrdered db filters := by
  unfold matchingOrdered orderedMatches
  simp only [orderOf_fetchConstraints, all_fetchConstraints filters loadMore lastDoc]

theorem runQuery_fetchConstraints (db : Db) (filters : Filters) (loadMore : Bool)
    (lastDoc : Option Job) :
    runQuery db.jobs (fetchConstraints filters loadMore lastDoc)
      = ((match (if loadMore then lastDoc else none) with
          | some c => (matchingOrdered db filters).filter
              (fun j => decide (docBefore (some .postedAt, .desc) c j))
          | none => matchingOrdered db filters).take 10) := by
  unfold runQuery
  simp only [cursorOf_fetchConstraints, limitOf_fetchConstraints, orderOf_fetchConstraints,
    orderedMatches_fetchConstraints]

theorem fetchJobs_getDocs (db : Db) (s : Session) (filters : Filters) (loadMore : Bool) :
    fetchJobs (getDocs db) s filters loadMore
      = (.ok ((runQuery db.jobs (fetchConstraints filters loadMore s.lastDoc)).map
            toJobObject),
         { jobs := if loadMore then
                     s.jobs ++ (runQuery db.jobs
                       (fetchConstraints filters loadMore s.lastDoc)).map toJobObject
                   else (runQuery db.jobs
                       (fetchConstraints filters loadMore s.lastDoc)).map toJobObject,
           loading := false,
           lastDoc := (runQuery db.jobs (fetchConstraints filters loadMore s.lastDoc)).getLast?,
           hasMore := decide ((runQuery db.jobs
             (fetchConstraints filters loadMore s.lastDoc)).length = 10) }) := by
  unfold fetchJobs getDocs
  cases loadMore <;> rfl

/-! ## Lemmas on the store ordering -/

theorem docBefore_irrefl (o : Option Field × Direction) (a : Job) : ¬ docBefore o a a := by
  unfold docBefore
  split <;> exact lt_irrefl _

theorem docBefore_asymm {o : Option Field × Direction} {a b : Job} (h : docBefore o a b) :
    ¬ docBefore o b a := by
  unfold docBefore at *
  split at h
  · rename_i hd; rw [if_pos hd]; exact lt_asymm h
  · rename_i hd; rw [if_neg hd]; exact lt_asymm h

theorem id_of_docKey (f : Option Field) (j : Job) :
    (ofLex (ofLex (ofLex (docKey f j)).2).2).2 = j.id.data := by
  unfold docKey
  cases f.bind j.field with
  | none => rfl
  | some v => cases v <;> rfl

theorem docKey_ne {f : Option Field} {a b : Job} (hne : a.id ≠ b.id) :
    docKey f a ≠ docKey f b := by
  intro h
  have h2 := congrArg (fun k : SortKey => (ofLex (ofLex (ofLex k).2).2).2) h
  simp only [id_of_docKey] at h2
  exact hne (String.ext h2)

theorem docBefore_of_docOrder {o : Option Field × Direction} {a b : Job}
    (h : docOrder o a b) (hne : a.id ≠ b.id) : docBefore o a b := by
  unfold docOrder at h
  unfold docBefore
  split at h
  · rename_i hd; rw [if_pos hd]; exact lt_of_le_of_ne h (docKey_ne (Ne.symm hne))
  · rename_i hd; rw [if_neg hd]; exact lt_of_le_of_ne h (docKey_ne hne)

/-- Under the ordering `fetchJobs` asks for, an earlier document was posted no earlier. -/
theorem postedAt_le_of_docOrder {a b : Job}
    (h : docOrder (some .postedAt, .desc) a b) : b.postedAt ≤ a.postedAt := by
  unfold docOrder at h
  simp only [if_true] at h
  have hk : ∀ j : Job, docKey (some .postedAt) j
      = toLex (3, toLex (j.postedAt, toLex (([] : List Char), j.id.data))) := fun _ => rfl
  rw [hk, hk, Prod.Lex.le_iff] at h
  rcases h with h | ⟨-, h⟩
  · exact absurd h (lt_irrefl _)
  · rw [Prod.Lex.le_iff] at h
    rcases h with h | ⟨h, -⟩
    · exact le_of_lt h
    · exact le_of_eq h

theorem matchingOrdered_sorted (db : Db) (filters : Filters) :
    (matchingOrdered db filters).Pairwise (docOrder (some .postedAt, .desc)) := by
  unfold matchingOrdered orderedMatches
  rw [orderOf_fetchConstraints]
  exact List.sorted_insertionSort _ _

theorem matchingOrdered_perm (db : Db) (filters : Filters) :
    (matchingOrdered db filters).Perm (matching db filters) := by
  unfold matchingOrdered orderedMatches matching
  rw [orderOf_fetchConstraints]
  refine (List.perm_insertionSort _ _).trans ?_
  have : (fun j : Job => (fetchConstraints filters false none).all (whereHolds j)
        && hasOrderField (some Field.postedAt, Direction.desc).1 j)
      = (fun j : Job => (fetchConstraints filters false none).all (whereHolds j)) := by
    funext j
    simp [hasOrderField, Job.field]
  rw [this]

theorem matchingOrdered_ids_nodup (db : Db) (filters : Filters)
    (hids : (db.jobs.map (fun j => j.id)).Nodup) :
    ((matchingOrdered db filters).map (fun j => j.id)).Nodup := by
  rw [((matchingOrdered_perm db filters).map _).nodup_iff]
  exact List.Nodup.sublist ((List.filter_sublist _).map _) hids

theorem matchingOrdered_strict (db : Db) (filters : Filters)
    (hids : (db.jobs.map (fun j => j.id)).Nodup) :
    (matchingOrdered db filters).Pairwise (docBefore (some .postedAt, .desc)) := by
  have h1 := matchingOrdered_sorted db filters
  have h2 : (matchingOrdered db filters).Pairwise (fun a b => a.id ≠ b.id) :=
    List.pairwise_map.mp (matchingOrdered_ids_nodup db filters hids)
  exact (h1.and h2).imp (fun h => docBefore_of_docOrder h.1 h.2)

theorem matchingOrdered_length (db : Db) (filters : Filters) :
    (matchingOrdered db filters).length = (matching db filters).length :=
  (matchingOrdered_perm db filters).length_eq

/-- In a strictly ordered list, the documents strictly after the position of `c` are the
ones listed after `c`. -/
theorem filter_after_cursor (o : Option Field × Direction) (init rest : List Job) (c : Job)
    (h : (init ++ c :: rest).Pairwise (docBefore o)) :
    (init ++ c :: rest).filter (fun j => decide (docBefore o c j)) = rest := by
  rw [List.pairwise_append, List.pairwise_cons] at h
  obtain ⟨-, ⟨hc, -⟩, hinit⟩ := h
  rw [List.filter_append]
  have h1 : init.filter (fun j => decide (docBefore o c j)) = [] := by
    rw [List.filter_eq_nil_iff]
    intro a ha
    simpa using docBefore_asymm (hinit a ha c (List.mem_cons_self _ _))
  have h2 : (c :: rest).filter (fun j => decide (docBefore o c j)) = rest := by
    rw [List.filter_cons_of_neg (by simpa using docBefore_irrefl o c), List.filter_eq_self]
    intro a ha
    simpa using hc a ha
  rw [h1, h2, List.nil_append]

/-! ## The paging invariant -/

theorem paged_fresh (db : Db) (filters : Filters) (s : Session) :
    Paged (matchingOrdered db filters) (fetchJobs (getDocs db) s filters false).2 := by
  rw [fetchJobs_getDocs, runQuery_fetchConstraints]
  simp only [Bool.false_eq_true, if_false]
  refine ⟨(matchingOrdered db filters).take 10, (matchingOrdered db filters).drop 10,
    List.take_append_drop _ _, rfl, ?_⟩
  intro c hc
  exact List.getLast?_eq_some_iff.mp hc

theorem loadMore_page (db : Db) (filters : Filters) (s : Session) (c : Job)
    (shown rest : List Job) (hids : (db.jobs.map (fun j => j.id)).Nodup)
    (hrest : shown ++ rest = matchingOrdered db filters) (hc : s.lastDoc = some c)
    (hlast : ∃ init, shown = init ++ [c]) :
    runQuery db.jobs (fetchConstraints filters true s.lastDoc) = rest.take 10 := by
  obtain ⟨init, hinit⟩ := hlast
  rw [runQuery_fetchConstraints, hc]
  simp only [if_true]
  have hL : matchingOrdered db filters = init ++ c :: rest := by
    rw [← hrest, hinit]; simp
  have hstrict := matchingOrdered_strict db filters hids
  rw [hL] at hstrict ⊢
  rw [filter_after_cursor _ init rest c hstrict]

theorem paged_loadMore (db : Db) (filters : Filters) (s : Session)
    (hids : (db.jobs.map (fun j => j.id)).Nodup)
    (hp : Paged (matchingOrdered db filters) s) (hcur : s.lastDoc ≠ none) :
    Paged (matchingOrdered db filters) (fetchJobs (getDocs db) s filters true).2 := by
  obtain ⟨shown, rest, hrest, hjobs, hlast⟩ := hp
  obtain ⟨c, hc⟩ := Option.ne_none_iff_exists'.mp hcur
  have hpage := loadMore_page db filters s c shown rest hids hrest hc (hlast c hc)
  rw [fetchJobs_getDocs, hpage]
  simp only [if_true]
  refine ⟨shown ++ rest.take 10, rest.drop 10, ?_, ?_, ?_⟩
  · rw [List.append_assoc, List.take_append_drop, hrest]
  · rw [hjobs, List.map_append]
  · intro c2 hc2
    obtain ⟨ys, hys⟩ := List.getLast?_eq_some_iff.mp hc2
    exact ⟨shown ++ ys, by rw [hys, List.append_assoc]⟩

theorem paged_pagingRun (db : Db) (filters : Filters) (s : Session)
    (hids : (db.jobs.map (fun j => j.id)).Nodup) (n : Nat)
    (hcur : ∀ k, k < n → (pagingRun db filters s k).lastDoc ≠ none) :
    Paged (matchingOrdered db filters) (pagingRun db filters s n) := by
  induction n with
  | zero => exact paged_fresh db filters s
  | succ n ih =>
    exact paged_loadMore db filters _ hids
      (ih (fun k hk => hcur k (Nat.lt_succ_of_lt hk))) (hcur n (Nat.lt_succ_self n))

/-- After any fetch against the modelled store, `hasMore = true` means the page had 10
listings, so the state holds a cursor. -/
theorem fetchJobs_hasMore_cursor (db : Db) (s : Session) (filters : Filters)
    (loadMore : Bool) (h : (fetchJobs (getDocs db) s filters loadMore).2.hasMore = true) :
    (fetchJobs (getDocs db) s filters loadMore).2.lastDoc ≠ none := by
  rw [fetchJobs_getDocs] at h ⊢
  simp only [decide_eq_true_eq] at h
  intro h0
  simp only [List.getLast?_eq_none_iff] at h0
  rw [h0] at h
  simp at h

theorem pagingRun_hasMore_cursor (db : Db) (filters : Filters) (s : Session) (k : Nat)
    (h : (pagingRun db filters s k).hasMore = true) :
    (pagingRun db filters s k).lastDoc ≠ none := by
  cases k with
  | zero => exact fetchJobs_hasMore_cursor db s filters false h
  | succ k => exact fetchJobs_hasMore_cursor db _ filters true h

theorem map_nodup_of_matchingOrdered {β : Type} (g : Job → β) (db : Db)
    (filters : Filters) (h : (db.jobs.map g).Nodup) :
    ((matchingOrdered db filters).map g).Nodup := by
  rw [((matchingOrdered_perm db filters).map g).nodup_iff]
  exact List.Nodup.sublist ((List.filter_sublist _).map g) h

/-! ## Lemmas on the search filter -/

theorem truthy_map_includes (toLowerCase : String → String) (o : Option String)
    (searchLower : String) :
    truthy (o.map (fun t => includes (toLowerCase t) searchLower)) = true
      ↔ ∃ t, o = some t ∧ searchLower.data <:+: (toLowerCase t).data := by
  cases o with
  | none => simp [truthy]
  | some w => simp [truthy, includes]

theorem truthy_map_any (toLowerCase : String → String) (o : Option (List String))
    (searchLower : String) :
    truthy (o.map (fun l => l.any (fun skill => includes (toLowerCase skill) searchLower)))
        = true
      ↔ ∃ l, o = some l ∧ ∃ skill ∈ l, searchLower.data <:+: (toLowerCase skill).data := by
  cases o with
  | none => simp [truthy]
  | some w => simp [truthy, includes]

/-- The callback of the filter keeps exactly the listings that match in the spec's
words. -/
theorem matchesSearch_iff (toLowerCase : String → String) (term : String) (j : Job) :
    matchesSearch toLowerCase (toLowerCase term) j = true
      ↔ SpecMatches toLowerCase term j := by
  unfold matchesSearch SpecMatches
  simp only [Bool.or_eq_true, truthy_map_includes, truthy_map_any]
  constructor
  · rintro (((⟨t, h, hi⟩ | ⟨t, h, hi⟩) | ⟨t, h, hi⟩) | h)
    · exact Or.inl ⟨t, Or.inl h, hi⟩
    · exact Or.inl ⟨t, Or.inr (Or.inl h), hi⟩
    · exact Or.inl ⟨t, Or.inr (Or.inr h), hi⟩
    · exact Or.inr h
  · rintro (⟨t, (h | h | h), hi⟩ | h)
    · exact Or.inl (Or.inl (Or.inl ⟨t, h, hi⟩))
    · exact Or.inl (Or.inl (Or.inr ⟨t, h, hi⟩))
    · exact Or.inl (Or.inr ⟨t, h, hi⟩)
    · exact Or.inr h

theorem searchJobs_ok (toLowerCase : String → String)
    (getDocs : List Constraint → Except String (List Job)) (s : Session)
    (term : String) (filters : Filters) (docs : List Job)
    (hq : getDocs (searchConstraints filters) = .ok docs) :
    searchJobs toLowerCase getDocs s term filters
      = (.ok (if term ≠ "" then
            (docs.map toJobObject).filter (matchesSearch toLowerCase (toLowerCase term))
          else docs.map toJobObject),
         { jobs := if term ≠ "" then
             (docs.map toJobObject).filter (matchesSearch toLowerCase (toLowerCase term))
             else docs.map toJobObject,
           loading := false, lastDoc := s.lastDoc, hasMore := s.hasMore }) := by
  unfold searchJobs
  simp only [hq]

/-! ## Lemmas on records, on the `jobs` collection and on JS numbers -/

theorem Record.get_set_same (r : Record) (k : String) (v : Val) :
    (r.set k v).get k = some v := by
  induction r with
  | nil => simp [Record.set, Record.get]
  | cons p r ih =>
    obtain ⟨k0, v0⟩ := p
    by_cases hk : k0 = k
    · simp [Record.set, Record.get, hk]
    · simp [Record.set, Record.get, hk, ih]

theorem Record.get_set_other (r : Record) (k k0 : String) (v : Val) (h : k ≠ k0) :
    (r.set k v).get k0 = r.get k0 := by
  induction r with
  | nil => simp [Record.set, Record.get, h]
  | cons p r ih =>
    obtain ⟨k1, v1⟩ := p
    by_cases hk : k1 = k
    · subst hk
      simp [Record.set, Record.get, h]
    · by_cases hk0 : k1 = k0
      · subst hk0
        simp [Record.set, Record.get, hk]
      · simp [Record.set, Record.get, hk, hk0, ih]

theorem applicationRecord_jobId (user : User) (profile : Profile) (now : Nat)
    (jobId : String) (data : Record) :
    (applicationRecord user profile now jobId data).get "jobId" = some (.str jobId) := by
  unfold applicationRecord
  rw [Record.get_set_other _ _ _ _ (by decide), Record.get_set_other _ _ _ _ (by decide),
    Record.get_set_other _ _ _ _ (by decide), Record.get_set_other _ _ _ _ (by decide),
    Record.get_set_other _ _ _ _ (by decide), Record.get_set_same]

theorem applicationRecord_applicantId (user : User) (profile : Profile) (now : Nat)
    (jobId : String) (data : Record) :
    (applicationRecord user profile now jobId data).get "applicantId"
      = some (.str user.uid) := by
  unfold applicationRecord
  rw [Record.get_set_other _ _ _ _ (by decide), Record.get_set_other _ _ _ _ (by decide),
    Record.get_set_other _ _ _ _ (by decide), Record.get_set_other _ _ _ _ (by decide),
    Record.get_set_same]

theorem applicationRecord_status (user : User) (profile : Profile) (now : Nat)
    (jobId : String) (data : Record) :
    (applicationRecord user profile now jobId data).get "status"
      = some (.str "pending") := by
  unfold applicationRecord
  rw [Record.get_set_same]

theorem id_of_find {l : List Job} {id : String} {j : Job}
    (h : l.find? (fun x => decide (x.id = id)) = some j) : j.id = id := by
  have := List.find?_some h
  simpa using this

/-- The modelled store follows the contract. -/
theorem modelStore_followsContract : FollowsContract modelStore := by
  refine ⟨?_, ?_, ?_⟩
  · intro db r db1 h
    simp only [modelStore, Except.ok.injEq] at h
    exact h.symm
  · intro db jobId j hget
    simp only [modelStore] at hget
    cases href : jobDocRef jobId with
    | error e => simp [href] at hget
    | ok jobRef =>
      simp only [href, Except.ok.injEq] at hget
      match jobRef, hget with
      | [id], hget => exact List.mem_of_find?_eq_some hget
      | [], hget => simp [getDoc] at hget
      | _ :: _ :: _, hget => simp [getDoc] at hget
  · intro db jobId n db2 j hget hupd
    simp only [modelStore] at hget hupd
    cases href : jobDocRef jobId with
    | error e => simp [href] at hget
    | ok jobRef =>
      simp only [href, Except.ok.injEq] at hget hupd
      subst hupd
      match jobRef, hget with
      | [id], hget =>
        simp only [getDoc] at hget
        rw [id_of_find hget]
      | [], hget => simp [getDoc] at hget
      | _ :: _ :: _, hget => simp [getDoc] at hget

theorem toNumber_of_le {n : Nat} (h : n ≤ 2 ^ 53) : toNumber n = n := by
  unfold toNumber
  rw [if_pos h]

/-- Below `2 ^ 53` the JS sum `n + 1` is exact. -/
theorem jsAdd_one_of_lt {n : Nat} (h : n < 2 ^ 53) : jsAdd (toNumber n) 1 = n + 1 := by
  unfold jsAdd
  rw [toNumber_of_le (Nat.le_of_lt h), toNumber_of_le h]

/-! ## C1: every listing of a page satisfies the constraints -/

/-- C1, as stated, fails: with the filter value `""` for `location`, which is not the
sentinel `"all"`, `fetchJobs` adds no constraint on `location`, and the page holds a
listing whose location is `"Colombo"`, not `""`. -/
theorem fetchJobs_empty_filter_value_not_applied :
    (fetchJobs (getDocs colomboDb) Session.initial (locationFilter "") false).1
        = .ok [plainJob "j1" 5 (some "Colombo") (some "full-time")]
      ∧ (locationFilter "").location = some ""
      ∧ ("" : String) ≠ "all"
      ∧ (plainJob "j1" 5 (some "Colombo") (some "full-time")).location ≠ some "" := by
  decide

/-- C1, amended: for every filter configuration, against a store whose query returns only
records that satisfy every constraint it is given, every listing of the page `fetchJobs`
returns has `isActive = true` and, for each of the keys `location`, `jobType`,
`experienceLevel`, `industry` whose value is present, non-empty and not `"all"`, has the
corresponding field equal to the filter value. -/
theorem fetchJobs_page_satisfies_filters
    (getDocs : List Constraint → Except String (List Job))
    (hstore : ∀ cs docs, getDocs cs = .ok docs → ∀ d ∈ docs, ∀ c ∈ cs, whereHolds d c = true)
    (s : Session) (filters : Filters) (loadMore : Bool) (page : List Job) (s' : Session)
    (h : fetchJobs getDocs s filters loadMore = (.ok page, s')) :
    ∀ j ∈ page, j.isActive = true
      ∧ (∀ v, filters.location = some v → v ≠ "" → v ≠ "all" → j.location = some v)
      ∧ (∀ v, filters.jobType = some v → v ≠ "" → v ≠ "all" → j.jobType = some v)
      ∧ (∀ v, filters.experienceLevel = some v → v ≠ "" → v ≠ "all" →
          j.experienceLevel = some v)
      ∧ (∀ v, filters.industry = some v → v ≠ "" → v ≠ "all" → j.industry = some v) := by
  intro j hj
  unfold fetchJobs at h
  cases hq : getDocs (fetchConstraints filters loadMore s.lastDoc) with
  | error e => simp [hq] at h
  | ok docs =>
    simp only [hq, Prod.mk.injEq, Except.ok.injEq] at h
    obtain ⟨hpage, -⟩ := h
    subst hpage
    obtain ⟨d, hd, rfl⟩ := List.mem_map.mp hj
    have hall := hstore _ _ hq d hd
    refine ⟨?_, ?_, ?_, ?_, ?_⟩
    · have := hall _ (isActive_mem_fetchConstraints filters loadMore s.lastDoc)
      simpa [whereHolds, Job.field, toJobObject] using this
    · intro v hv h1 h2
      have hm : Constraint.whereEq .location (.str v)
          ∈ fetchConstraints filters loadMore s.lastDoc := by
        have := mem_filterConstraint (f := .location) h1 h2
        simp only [fetchConstraints, hv, List.mem_append]
        tauto
      have := hall _ hm
      simp only [whereHolds, Job.field, decide_eq_true_eq] at this
      exact whereHolds_str this
    · intro v hv h1 h2
      have hm : Constraint.whereEq .jobType (.str v)
          ∈ fetchConstraints filters loadMore s.lastDoc := by
        have := mem_filterConstraint (f := .jobType) h1 h2
        simp only [fetchConstraints, hv, List.mem_append]
        tauto
      have := hall _ hm
      simp only [whereHolds, Job.field, decide_eq_true_eq] at this
      exact whereHolds_str this
    · intro v hv h1 h2
      have hm : Constraint.whereEq .experienceLevel (.str v)
          ∈ fetchConstraints filters loadMore s.lastDoc := by
        have := mem_filterConstraint (f := .experienceLevel) h1 h2
        simp only [fetchConstraints, hv, List.mem_append]
        tauto
      have := hall _ hm
      simp only [whereHolds, Job.field, decide_eq_true_eq] at this
      exact whereHolds_str this
    · intro v hv h1 h2
      have hm : Constraint.whereEq .industry (.str v)
          ∈ fetchConstraints filters loadMore s.lastDoc := by
        have := mem_filterConstraint (f := .industry) h1 h2
        simp only [fetchConstraints, hv, List.mem_append]
        tauto
      have := hall _ hm
      simp only [whereHolds, Job.field, decide_eq_true_eq] at this
      exact whereHolds_str this

/-- C1, amended, at the store with one Colombo listing and the filter `location =
"Colombo"`: the fetch returns that listing, which is active and located in Colombo. -/
theorem fetchJobs_page_satisfies_filters_witness :
    (plainJob "j1" 5 (some "Colombo") (some "full-time")).isActive = true
      ∧ (plainJob "j1" 5 (some "Colombo") (some "full-time")).location = some "Colombo" :=
  have h := fetchJobs_page_satisfies_filters (getDocs colomboDb) (getDocs_sound colomboDb)
    Session.initial (locationFilter "Colombo") false
    [plainJob "j1" 5 (some "Colombo") (some "full-time")]
    (fetchJobs (getDocs colomboDb) Session.initial (locationFilter "Colombo") false).2
    (by decide) (plainJob "j1" 5 (some "Colombo") (some "full-time")) (by simp)
  ⟨h.1, h.2.1 "Colombo" rfl (by decide) (by decide)⟩

/-! ## C2: the pages of a paging session -/

/-- C2, as stated, fails: against the store with one listing, the fresh fetch returns that
listing, the first load-more returns the empty page and clears the cursor, and the second
load-more, having no cursor, fetches the first page again and appends it: the result list
holds the listing twice. -/
theorem pagingRun_second_loadMore_duplicates :
    (pagingRun colomboDb noFilters Session.initial 1).lastDoc = none
      ∧ (pagingRun colomboDb noFilters Session.initial 2).jobs
          = [plainJob "j1" 5 (some "Colombo") (some "full-time"),
             plainJob "j1" 5 (some "Colombo") (some "full-time")]
      ∧ ¬ (pagingRun colomboDb noFilters Session.initial 2).jobs.Nodup := by
  decide

/-- C2, amended: for every store content (documents with distinct document ids), every
filter set and every prior state, after a fresh fetch followed by N load-more fetches
under the same filters, each load-more made while the state holds a cursor (as it does
whenever `hasMore` is true), the result list is built, one object per document, from an
initial part of the matching documents in the order the query asks for: no document
occurs twice, and the list is non-increasing in `postedAt`.  When the `id` properties of
the objects built from the store's documents are distinct (as they are when no document
stores a field called `id`), no two entries of the list have the same `id`, and no two
entries are equal. -/
theorem pagingRun_duplicate_free_sorted (db : Db) (filters : Filters) (s : Session)
    (N : Nat) (hids : (db.jobs.map (fun j => j.id)).Nodup)
    (hcursor : ∀ k, k < N → (pagingRun db filters s k).lastDoc ≠ none
      ∨ (pagingRun db filters s k).hasMore = true) :
    (∃ shown, shown <+: matchingOrdered db filters
        ∧ (pagingRun db filters s N).jobs = shown.map toJobObject
        ∧ (shown.map (fun j => j.id)).Nodup)
      ∧ (pagingRun db filters s N).jobs.Pairwise (fun a b => b.postedAt ≤ a.postedAt)
      ∧ ((db.jobs.map (fun d => (toJobObject d).id)).Nodup →
          ((pagingRun db filters s N).jobs.map (fun j => j.id)).Nodup
            ∧ (pagingRun db filters s N).jobs.Nodup) := by
  have hheld : ∀ k, k < N → (pagingRun db filters s k).lastDoc ≠ none := fun k hk =>
    (hcursor k hk).elim id (pagingRun_hasMore_cursor db filters s k)
  obtain ⟨shown, rest, hrest, hjobs, -⟩ := paged_pagingRun db filters s hids N hheld
  have hpre : shown <+: matchingOrdered db filters := ⟨rest, hrest⟩
  refine ⟨⟨shown, hpre, hjobs, ?_⟩, ?_, ?_⟩
  · exact List.Nodup.sublist (hpre.sublist.map _)
      (map_nodup_of_matchingOrdered _ db filters hids)
  · rw [hjobs, List.pairwise_map]
    exact ((matchingOrdered_sorted db filters).sublist hpre.sublist).imp
      (fun h => postedAt_le_of_docOrder h)
  · intro hobj
    have hnd : ((pagingRun db filters s N).jobs.map (fun j => j.id)).Nodup := by
      rw [hjobs, List.map_map]
      exact List.Nodup.sublist (hpre.sublist.map _)
        (map_nodup_of_matchingOrdered _ db filters hobj)
    exact ⟨hnd, List.Nodup.of_map _ hnd⟩

/-- C2, amended, at the store with 15 full-time listings: the fresh fetch leaves a cursor,
and the result list after the fresh fetch and one load-more is non-increasing in
`postedAt` and has no two entries with the same `id`. -/
theorem pagingRun_duplicate_free_sorted_witness :
    (pagingRun fullTimeDb fullTimeFilter Session.initial 1).jobs.Pairwise
        (fun a b => b.postedAt ≤ a.postedAt)
      ∧ ((pagingRun fullTimeDb fullTimeFilter Session.initial 1).jobs.map
          (fun j => j.id)).Nodup
      ∧ (pagingRun fullTimeDb fullTimeFilter Session.initial 1).jobs.Nodup :=
  have h := pagingRun_duplicate_free_sorted fullTimeDb fullTimeFilter Session.initial 1
    (by decide) (by decide)
  ⟨h.2.1, h.2.2 (by decide)⟩

/-! ## C3: `hasMore` -/

/-- C3: after every `fetchJobs` call that succeeds, fresh or load-more, against a store
that returns no more documents than the limit it is given, `hasMore` is false exactly
when the page just fetched is shorter than 10 and true exactly when it has 10 listings;
and against a store with 15 matching listings the fresh fetch returns the first 10 in the
store's order with `hasMore = true`, and the load-more after it returns the remaining 5
with `hasMore = false`. -/
theorem fetchJobs_hasMore :
    (∀ (getDocs : List Constraint → Except String (List Job)) (s : Session)
        (filters : Filters) (loadMore : Bool) (page : List Job) (s' : Session),
        (∀ cs docs n, getDocs cs = .ok docs → limitOf cs = some n → docs.length ≤ n) →
        fetchJobs getDocs s filters loadMore = (.ok page, s') →
        (s'.hasMore = false ↔ page.length < 10) ∧ (s'.hasMore = true ↔ page.length = 10))
      ∧ (∀ (db : Db) (filters : Filters) (s : Session),
        (db.jobs.map (fun j => j.id)).Nodup → (matching db filters).length = 15 →
        (fetchJobs (getDocs db) s filters false).1
            = .ok (((matchingOrdered db filters).take 10).map toJobObject)
          ∧ (((matchingOrdered db filters).take 10).map toJobObject).length = 10
          ∧ (fetchJobs (getDocs db) s filters false).2.hasMore = true
          ∧ (fetchJobs (getDocs db) (fetchJobs (getDocs db) s filters false).2 filters
              true).1 = .ok (((matchingOrdered db filters).drop 10).map toJobObject)
          ∧ (((matchingOrdered db filters).drop 10).map toJobObject).length = 5
          ∧ (fetchJobs (getDocs db) (fetchJobs (getDocs db) s filters false).2 filters
              true).2.hasMore = false) := by
  constructor
  · intro getDocs s filters loadMore page s' hlimit h
    unfold fetchJobs at h
    cases hq : getDocs (fetchConstraints filters loadMore s.lastDoc) with
    | error e => simp [hq] at h
    | ok docs =>
      simp only [hq, Prod.mk.injEq, Except.ok.injEq] at h
      obtain ⟨hpage, hs⟩ := h
      subst hpage
      subst hs
      have hle := hlimit _ _ 10 hq (limitOf_fetchConstraints filters loadMore s.lastDoc)
      simp only [decide_eq_false_iff_not, decide_eq_true_eq, List.length_map]
      exact ⟨⟨fun h => by omega, fun h => by omega⟩, trivial⟩
  · intro db filters s hids hlen
    have hL : (matchingOrdered db filters).length = 15 := by
      rw [matchingOrdered_length, hlen]
    have hfresh : runQuery db.jobs (fetchConstraints filters false s.lastDoc)
        = (matchingOrdered db filters).take 10 := by
      rw [runQuery_fetchConstraints]
      simp
    have htake : ((matchingOrdered db filters).take 10).length = 10 := by
      rw [List.length_take, hL]; rfl
    have hdrop : ((matchingOrdered db filters).drop 10).length = 5 := by
      rw [List.length_drop, hL]
    have hne : ((matchingOrdered db filters).take 10).getLast? ≠ none := by
      intro h0
      rw [List.getLast?_eq_none_iff] at h0
      rw [h0] at htake
      simp at htake
    obtain ⟨c, hc⟩ := Option.ne_none_iff_exists'.mp hne
    have hmore : runQuery db.jobs (fetchConstraints filters true
        (fetchJobs (getDocs db) s filters false).2.lastDoc)
        = (matchingOrdered db filters).drop 10 := by
      have hp := loadMore_page db filters (fetchJobs (getDocs db) s filters false).2 c
        ((matchingOrdered db filters).take 10) ((matchingOrdered db filters).drop 10) hids
        (List.take_append_drop _ _)
        (by rw [fetchJobs_getDocs, hfresh]; exact hc)
        (List.getLast?_eq_some_iff.mp hc)
      rw [hp]
      exact List.take_of_length_le (by rw [hdrop]; decide)
    refine ⟨?_, by rw [List.length_map, htake], ?_, ?_, by rw [List.length_map, hdrop], ?_⟩
    · rw [fetchJobs_getDocs, hfresh]
    · rw [fetchJobs_getDocs, hfresh]
      simp only [htake, decide_True]
    · rw [fetchJobs_getDocs (s := (fetchJobs (getDocs db) s filters false).2), hmore]
    · rw [fetchJobs_getDocs (s := (fetchJobs (getDocs db) s filters false).2), hmore]
      simp only [hdrop]
      decide

/-- C3 at the store with 15 full-time listings and the filter `jobType = "full-time"`:
the fresh fetch returns 10 listings with `hasMore = true`, the load-more after it the
other 5 with `hasMore = false`. -/
theorem fetchJobs_hasMore_witness :
    ((fetchJobs (getDocs fullTimeDb) Session.initial fullTimeFilter false).1
        = .ok (((matchingOrdered fullTimeDb fullTimeFilter).take 10).map toJobObject)
      ∧ (((matchingOrdered fullTimeDb fullTimeFilter).take 10).map toJobObject).length = 10
      ∧ (fetchJobs (getDocs fullTimeDb) Session.initial fullTimeFilter false).2.hasMore
          = true
      ∧ (fetchJobs (getDocs fullTimeDb)
          (fetchJobs (getDocs fullTimeDb) Session.initial fullTimeFilter false).2
          fullTimeFilter true).1
          = .ok (((matchingOrdered fullTimeDb fullTimeFilter).drop 10).map toJobObject)
      ∧ (((matchingOrdered fullTimeDb fullTimeFilter).drop 10).map toJobObject).length = 5
      ∧ (fetchJobs (getDocs fullTimeDb)
          (fetchJobs (getDocs fullTimeDb) Session.initial fullTimeFilter false).2
          fullTimeFilter true).2.hasMore = false)
      ∧ ((fetchJobs (getDocs colomboDb) Session.initial noFilters false).2.hasMore = false
          ↔ [plainJob "j1" 5 (some "Colombo") (some "full-time")].length < 10) :=
  ⟨fetchJobs_hasMore.2 fullTimeDb fullTimeFilter Session.initial (by decide) (by decide),
   (fetchJobs_hasMore.1 (getDocs colomboDb) Session.initial noFilters false
      [plainJob "j1" 5 (some "Colombo") (some "full-time")]
      (fetchJobs (getDocs colomboDb) Session.initial noFilters false).2
      (fun cs docs n hq hn => by
        simp only [getDocs, Except.ok.injEq] at hq
        subst hq
        unfold runQuery
        simp only [hn]
        exact List.length_take_le _ _)
      (by decide)).1⟩

/-! ## C4: the search filter -/

/-- C4: for every non-empty search term and every list of listings the server-side query
returns, `searchJobs` returns (and stores as the result list) exactly the listings of that
list, in the server's order, that match in the spec's words: the lowercased `title`,
`companyName` or `description` contains the lowercased term, or some entry of `skills`
lowercased contains it, whatever the engine's lowercasing is.  With a lowercasing that
treats ASCII strings as `String.prototype.toLowerCase` does, "engineer" keeps a listing
titled "Senior Engineer" and "REACT" keeps a listing whose skills contain "React". -/
theorem searchJobs_substring_filter :
    (∀ (toLowerCase : String → String)
        (getDocs : List Constraint → Except String (List Job)) (s : Session)
        (term : String) (filters : Filters) (docs : List Job),
        term ≠ "" → getDocs (searchConstraints filters) = .ok docs →
        ∃ keep : Job → Bool, (∀ j, keep j = true ↔ SpecMatches toLowerCase term j)
          ∧ (searchJobs toLowerCase getDocs s term filters).1
              = .ok ((docs.map toJobObject).filter keep)
          ∧ (searchJobs toLowerCase getDocs s term filters).2.jobs
              = (docs.map toJobObject).filter keep)
      ∧ (∀ (toLowerCase : String → String)
        (getDocs : List Constraint → Except String (List Job)) (s : Session)
        (filters : Filters) (docs : List Job) (j : Job),
        LowersAscii toLowerCase →
        getDocs (searchConstraints filters) = .ok docs → j ∈ docs →
        j.title = some "Senior Engineer" →
        ∃ r, (searchJobs toLowerCase getDocs s "engineer" filters).1 = .ok r
          ∧ toJobObject j ∈ r)
      ∧ (∀ (toLowerCase : String → String)
        (getDocs : List Constraint → Except String (List Job)) (s : Session)
        (filters : Filters) (docs : List Job) (j : Job) (l : List String),
        LowersAscii toLowerCase →
        getDocs (searchConstraints filters) = .ok docs → j ∈ docs →
        j.skills = some l → "React" ∈ l →
        ∃ r, (searchJobs toLowerCase getDocs s "REACT" filters).1 = .ok r
          ∧ toJobObject j ∈ r) := by
  refine ⟨?_, ?_, ?_⟩
  · intro toLowerCase getDocs s term filters docs hterm hq
    refine ⟨matchesSearch toLowerCase (toLowerCase term),
      matchesSearch_iff toLowerCase term, ?_, ?_⟩
    · rw [searchJobs_ok toLowerCase getDocs s term filters docs hq]
      simp [hterm]
    · rw [searchJobs_ok toLowerCase getDocs s term filters docs hq]
      simp [hterm]
  · intro toLowerCase getDocs s filters docs j hlow hq hj htitle
    refine ⟨(docs.map toJobObject).filter
      (matchesSearch toLowerCase (toLowerCase "engineer")), ?_, ?_⟩
    · rw [searchJobs_ok toLowerCase getDocs s "engineer" filters docs hq]
      rfl
    · rw [List.mem_filter]
      refine ⟨List.mem_map_of_mem _ hj,
        (matchesSearch_iff toLowerCase "engineer" (toJobObject j)).mpr ?_⟩
      refine Or.inl ⟨"Senior Engineer", Or.inl htitle, ?_⟩
      rw [hlow "engineer" (by decide), hlow "Senior Engineer" (by decide)]
      decide
  · intro toLowerCase getDocs s filters docs j l hlow hq hj hskills hreact
    refine ⟨(docs.map toJobObject).filter
      (matchesSearch toLowerCase (toLowerCase "REACT")), ?_, ?_⟩
    · rw [searchJobs_ok toLowerCase getDocs s "REACT" filters docs hq]
      rfl
    · rw [List.mem_filter]
      refine ⟨List.mem_map_of_mem _ hj,
        (matchesSearch_iff toLowerCase "REACT" (toJobObject j)).mpr ?_⟩
      refine Or.inr ⟨l, hskills, "React", hreact, ?_⟩
      rw [hlow "REACT" (by decide), hlow "React" (by decide)]
      decide

/-- C4 at the store with the listing titled "Senior Engineer" with skills "React" and
"Node" and two other listings, with ASCII lowercasing: "engineer" and "REACT" each return
the first listing only. -/
theorem searchJobs_substring_filter_witness :
    (searchJobs asciiLowerCase (getDocs searchDb) Session.initial "engineer" noFilters).1
        = .ok [engineerJob]
      ∧ (∃ r, (searchJobs asciiLowerCase (getDocs searchDb) Session.initial "engineer"
            noFilters).1 = .ok r ∧ toJobObject engineerJob ∈ r)
      ∧ (∃ r, (searchJobs asciiLowerCase (getDocs searchDb) Session.initial "REACT"
            noFilters).1 = .ok r ∧ toJobObject engineerJob ∈ r) :=
  ⟨by decide,
   searchJobs_substring_filter.2.1 asciiLowerCase (getDocs searchDb) Session.initial
     noFilters [engineerJob, noSkillsJob, skillsOnlyJob] engineerJob (fun _ _ => rfl)
     (by decide) (by decide) (by decide),
   searchJobs_substring_filter.2.2 asciiLowerCase (getDocs searchDb) Session.initial
     noFilters [engineerJob, noSkillsJob, skillsOnlyJob] engineerJob ["React", "Node"]
     (fun _ _ => rfl) (by decide) (by decide) (by decide) (by decide)⟩

/-! ## C5: absent fields in the search filter -/

/-- C5: for every search term, the callback of the client-side filter is defined on
every listing, whichever of `title`, `companyName`, `description`, `skills` are absent,
and an absent field counts as non-matching: a listing is kept exactly when a present
`title`, a present `companyName` or a present `description`, lowercased, contains the
term, or an entry of a present `skills`, lowercased, contains it.  So a listing with no
`skills` field is kept if and only if the term matches one of its present `title`,
`companyName` or `description`, and a listing with none of the four is dropped.  Whenever
the server-side query succeeds `searchJobs` returns a list, which for a non-empty term is
the server's list filtered by that callback. -/
theorem searchJobs_absent_fields :
    (∀ (toLowerCase : String → String) (searchLower : String) (j : Job),
        matchesSearch toLowerCase searchLower j = true
          ↔ ((∃ t, j.title = some t ∧ includes (toLowerCase t) searchLower = true)
            ∨ (∃ t, j.companyName = some t ∧ includes (toLowerCase t) searchLower = true)
            ∨ (∃ t, j.description = some t ∧ includes (toLowerCase t) searchLower = true)
            ∨ (∃ l, j.skills = some l
                ∧ ∃ skill ∈ l, includes (toLowerCase skill) searchLower = true)))
      ∧ (∀ (toLowerCase : String → String) (searchLower : String) (j : Job),
        j.skills = none →
        (matchesSearch toLowerCase searchLower j = true
          ↔ ∃ t, (j.title = some t ∨ j.companyName = some t ∨ j.description = some t)
              ∧ includes (toLowerCase t) searchLower = true))
      ∧ (∀ (toLowerCase : String → String) (searchLower : String) (j : Job),
        j.title = none → j.companyName = none → j.description = none → j.skills = none →
        matchesSearch toLowerCase searchLower j = false)
      ∧ (∀ (toLowerCase : String → String)
        (getDocs : List Constraint → Except String (List Job)) (s : Session)
        (term : String) (filters : Filters) (docs : List Job),
        getDocs (searchConstraints filters) = .ok docs →
        ∃ r, (searchJobs toLowerCase getDocs s term filters).1 = .ok r
          ∧ (term ≠ "" → r = (docs.map toJobObject).filter
              (matchesSearch toLowerCase (toLowerCase term)))) := by
  have hfull : ∀ (toLowerCase : String → String) (searchLower : String) (j : Job),
      matchesSearch toLowerCase searchLower j = true
        ↔ ((∃ t, j.title = some t ∧ includes (toLowerCase t) searchLower = true)
          ∨ (∃ t, j.companyName = some t ∧ includes (toLowerCase t) searchLower = true)
          ∨ (∃ t, j.description = some t ∧ includes (toLowerCase t) searchLower = true)
          ∨ (∃ l, j.skills = some l
              ∧ ∃ skill ∈ l, includes (toLowerCase skill) searchLower = true)) := by
    intro toLowerCase searchLower j
    unfold matchesSearch
    cases j.title <;> cases j.companyName <;> cases j.description <;> cases j.skills <;>
      simp [truthy, or_assoc]
  refine ⟨hfull, ?_, ?_, ?_⟩
  · intro toLowerCase searchLower j hskills
    rw [hfull, hskills]
    constructor
    · rintro (⟨t, h, hi⟩ | ⟨t, h, hi⟩ | ⟨t, h, hi⟩ | ⟨l, h, -⟩)
      · exact ⟨t, Or.inl h, hi⟩
      · exact ⟨t, Or.inr (Or.inl h), hi⟩
      · exact ⟨t, Or.inr (Or.inr h), hi⟩
      · simp at h
    · rintro ⟨t, (h | h | h), hi⟩
      · exact Or.inl ⟨t, h, hi⟩
      · exact Or.inr (Or.inl ⟨t, h, hi⟩)
      · exact Or.inr (Or.inr (Or.inl ⟨t, h, hi⟩))
  · intro toLowerCase searchLower j h1 h2 h3 h4
    simp [matchesSearch, h1, h2, h3, h4, truthy]
  · intro toLowerCase getDocs s term filters docs hq
    rw [searchJobs_ok toLowerCase getDocs s term filters docs hq]
    exact ⟨_, rfl, fun h => by simp [h]⟩

/-- C5 at three listings, with ASCII lowercasing: the accountant listing, which has no
`skills` field, is kept for "ledger" through its description; the listing with skills and
no `title`, `companyName` or `description` is dropped for "engineer" and kept for
"excel"; and a search for "react" over the store returns the engineer listing alone. -/
theorem searchJobs_absent_fields_witness :
    (matchesSearch asciiLowerCase "ledger" noSkillsJob = true
        ↔ ∃ t, (noSkillsJob.title = some t ∨ noSkillsJob.companyName = some t
              ∨ noSkillsJob.description = some t)
            ∧ includes (asciiLowerCase t) "ledger" = true)
      ∧ matchesSearch asciiLowerCase "ledger" noSkillsJob = true
      ∧ matchesSearch asciiLowerCase "engineer" skillsOnlyJob = false
      ∧ matchesSearch asciiLowerCase "excel" skillsOnlyJob = true
      ∧ (∃ r, (searchJobs asciiLowerCase (getDocs searchDb) Session.initial "react"
            noFilters).1 = .ok r
          ∧ (("react" : String) ≠ "" →
              r = ([engineerJob, noSkillsJob, skillsOnlyJob].map toJobObject).filter
                (matchesSearch asciiLowerCase (asciiLowerCase "react"))))
      ∧ (searchJobs asciiLowerCase (getDocs searchDb) Session.initial "react" noFilters).1
          = .ok [engineerJob] :=
  ⟨searchJobs_absent_fields.2.1 asciiLowerCase "ledger" noSkillsJob (by decide),
   by decide, by decide, by decide,
   searchJobs_absent_fields.2.2.2 asciiLowerCase (getDocs searchDb) Session.initial "react"
     noFilters [engineerJob, noSkillsJob, skillsOnlyJob] (by decide),
   by decide⟩

/-! ## C6: `applyToJob` without the job seeker role -/

/-- C6: when there is no signed-in user, or the profile's role is not `jobSeeker` (or
there is no profile), `applyToJob` throws "Only job seekers can apply" and leaves the
whole store as it was, without calling the store: no application record is inserted and
no listing is changed, for every store, `jobId` and `applicationData`. -/
theorem applyToJob_forbidden (store : ApplyStore) (auth : Auth) (now : Nat) (db : Db)
    (jobId : String) (applicationData : Record)
    (h : auth.currentUser = none
      ∨ auth.userProfile.map (fun p => p.userType) ≠ some "jobSeeker") :
    applyToJob store auth now db jobId applicationData
      = (.error "Only job seekers can apply", db) := by
  unfold applyToJob
  cases hu : auth.currentUser with
  | none => rfl
  | some user =>
    cases hp : auth.userProfile with
    | none => rfl
    | some profile =>
      have hne : profile.userType ≠ "jobSeeker" := by
        rcases h with h | h
        · simp [hu] at h
        · simpa [hp] using h
      simp [hne]

/-- C6 at a signed-in company applying to the Colombo listing: the call throws and the
store is untouched. -/
theorem applyToJob_forbidden_witness :
    applyToJob modelStore companyAuth 7 colomboDb "j1" [("resume", .str "cv.pdf")]
      = (.error "Only job seekers can apply", colomboDb) :=
  applyToJob_forbidden modelStore companyAuth 7 colomboDb "j1" [("resume", .str "cv.pdf")]
    (Or.inr (by decide))

/-! ## C7: `applyToJob` for a listing that does not exist -/

/-- C7, as stated, fails: a job seeker applying to the id `"missing"`, which no listing
of the store has, gets the success value `true`, and the application record is in the
store. -/
theorem applyToJob_missing_listing_succeeds :
    getDoc colomboDb ["missing"] = none
      ∧ (applyToJob modelStore seekerAuth 7 colomboDb "missing" []).1 = .ok true
      ∧ (applyToJob modelStore seekerAuth 7 colomboDb "missing" []).2.applications
          = [[("jobId", .str "missing"), ("applicantId", .str "u1"),
              ("applicantName", .str "Asha Perera"),
              ("applicantEmail", .str "asha@example.com"), ("appliedAt", .timestamp 7),
              ("status", .str "pending")]] := by
  decide

/-- C7, amended: for every store that follows the contract and every `jobId` for which
the store reports no document (`jobDoc.exists()` is false), `applyToJob` called by a job
seeker, its insert of the application record having gone through, returns the success
value `true`; the application record is inserted, the counter update is skipped and no
listing is changed. -/
theorem applyToJob_missing_listing (store : ApplyStore) (user : User) (profile : Profile)
    (now : Nat) (db db1 : Db) (jobId : String) (applicationData : Record)
    (hstore : FollowsContract store) (hrole : profile.userType = "jobSeeker")
    (hadd : store.addDoc db (applicationRecord user profile now jobId applicationData)
      = .ok db1)
    (hmissing : store.getDoc db1 jobId = .ok none) :
    applyToJob store { currentUser := some user, userProfile := some profile } now db jobId
        applicationData
      = (.ok true,
         { jobs := db.jobs,
           applications := db.applications
             ++ [applicationRecord user profile now jobId applicationData] }) := by
  have hdb1 := hstore.1 _ _ _ hadd
  unfold applyToJob
  simp only [ne_eq, hrole, not_true_eq_false, if_false, hadd, hmissing]
  rw [hdb1]
  rfl

/-- C7, amended, at a job seeker applying to the id `"missing"` of the store with the one
Colombo listing. -/
theorem applyToJob_missing_listing_witness :
    applyToJob modelStore seekerAuth 7 colomboDb "missing" []
      = (.ok true,
         { jobs := colomboDb.jobs,
           applications := colomboDb.applications
             ++ [applicationRecord { uid := "u1" }
                  { userType := "jobSeeker", firstName := "Asha", lastName := "Perera",
                    email := "asha@example.com" } 7 "missing" []] }) :=
  applyToJob_missing_listing modelStore { uid := "u1" }
    { userType := "jobSeeker", firstName := "Asha", lastName := "Perera",
      email := "asha@example.com" } 7 colomboDb
    (addDoc colomboDb (applicationRecord { uid := "u1" }
      { userType := "jobSeeker", firstName := "Asha", lastName := "Perera",
        email := "asha@example.com" } 7 "missing" []))
    "missing" [] modelStore_followsContract (by decide) (by decide) (by decide)

/-! ## C8: a successful `applyToJob` -/

/-- C8, as stated, fails: the counter is a JS number, and at `2 ^ 53` the sum
`currentCount + 1` is `2 ^ 53` again.  A job seeker applying to a listing whose
`applicationsCount` is `2 ^ 53` succeeds, and the counter written back is the previous
value, not the previous value plus 1. -/
theorem applyToJob_counter_saturates :
    (applyToJob modelStore seekerAuth 7 saturatedDb "j1" []).1 = .ok true
      ∧ getDoc saturatedDb ["j1"]
          = some { plainJob "j1" 5 (some "Colombo") (some "full-time") with
                   applicationsCount := some (2 ^ 53) }
      ∧ getDoc (applyToJob modelStore seekerAuth 7 saturatedDb "j1" []).2 ["j1"]
          = some { plainJob "j1" 5 (some "Colombo") (some "full-time") with
                   applicationsCount := some (2 ^ 53) }
      ∧ (2 : Nat) ^ 53 ≠ 2 ^ 53 + 1 := by
  decide

/-- C8, amended: for every store that follows the contract and every `applicationData`,
an `applyToJob` by a job seeker whose store calls go through, against an existing listing
whose counter is below `2 ^ 53` (an absent counter being read as 0), returns `true` and
inserts exactly one application record, whose `jobId` is the given one, whose
`applicantId` is the user's uid and whose `status` is `pending` whatever
`applicationData` carries under those names; the listing's `applicationsCount` becomes
its previous value plus 1, every other field of the listing and every other listing
staying as they were. -/
theorem applyToJob_success (store : ApplyStore) (user : User) (profile : Profile)
    (now : Nat) (db db1 db2 : Db) (jobId : String) (applicationData : Record) (j : Job)
    (hstore : FollowsContract store) (hrole : profile.userType = "jobSeeker")
    (hadd : store.addDoc db (applicationRecord user profile now jobId applicationData)
      = .ok db1)
    (hjob : store.getDoc db1 jobId = .ok (some j))
    (hbound : j.applicationsCount.getD 0 < 2 ^ 53)
    (hupdate : store.updateDoc db1 jobId (j.applicationsCount.getD 0 + 1) = .ok db2) :
    applyToJob store { currentUser := some user, userProfile := some profile } now db jobId
        applicationData = (.ok true, db2)
      ∧ db2.applications
          = db.applications ++ [applicationRecord user profile now jobId applicationData]
      ∧ (applicationRecord user profile now jobId applicationData).get "jobId"
          = some (.str jobId)
      ∧ (applicationRecord user profile now jobId applicationData).get "applicantId"
          = some (.str user.uid)
      ∧ (applicationRecord user profile now jobId applicationData).get "status"
          = some (.str "pending")
      ∧ j ∈ db.jobs
      ∧ db2.jobs = db.jobs.map (fun x =>
          if x.id = j.id then
            { x with applicationsCount := some (j.applicationsCount.getD 0 + 1) }
          else x)
      ∧ { j with applicationsCount := some (j.applicationsCount.getD 0 + 1) } ∈ db2.jobs := by
  have hdb1 := hstore.1 _ _ _ hadd
  have hdb2 := hstore.2.2 _ _ _ _ _ hjob hupdate
  have hmem : j ∈ db.jobs := by
    have := hstore.2.1 _ _ _ hjob
    rw [hdb1] at this
    exact this
  have hjobs : db2.jobs = db.jobs.map (fun x =>
      if x.id = j.id then
        { x with applicationsCount := some (j.applicationsCount.getD 0 + 1) }
      else x) := by
    rw [hdb2, hdb1]
    rfl
  have hrun : applyToJob store { currentUser := some user, userProfile := some profile }
      now db jobId applicationData = (.ok true, db2) := by
    unfold applyToJob
    simp only [ne_eq, hrole, not_true_eq_false, if_false, hadd, hjob,
      jsAdd_one_of_lt hbound, hupdate]
  refine ⟨hrun, ?_, applicationRecord_jobId .., applicationRecord_applicantId ..,
    applicationRecord_status .., hmem, hjobs, ?_⟩
  · rw [hdb2, hdb1]
    rfl
  · rw [hjobs]
    exact List.mem_map.mpr ⟨j, hmem, by simp⟩

/-- C8, amended, at a job seeker applying to the Colombo listing with data that itself
carries a `status` and a `jobId`: both are overridden, and the absent counter becomes
1, the field `applicationCount` that `postJob` wrote staying 0. -/
theorem applyToJob_success_witness :
    applyToJob modelStore seekerAuth 7 colomboDb "j1"
        [("status", .str "accepted"), ("jobId", .str "other")]
        = (.ok true,
           { jobs := [{ plainJob "j1" 5 (some "Colombo") (some "full-time") with
                        applicationsCount := some 1 }],
             applications := [applicationRecord { uid := "u1" }
               { userType := "jobSeeker", firstName := "Asha", lastName := "Perera",
                 email := "asha@example.com" } 7 "j1"
               [("status", .str "accepted"), ("jobId", .str "other")]] })
      ∧ (applicationRecord { uid := "u1" }
          { userType := "jobSeeker", firstName := "Asha", lastName := "Perera",
            email := "asha@example.com" } 7 "j1"
          [("status", .str "accepted"), ("jobId", .str "other")]).get "status"
          = some (.str "pending") :=
  have h := applyToJob_success modelStore { uid := "u1" }
    { userType := "jobSeeker", firstName := "Asha", lastName := "Perera",
      email := "asha@example.com" } 7 colomboDb
    (addDoc colomboDb (applicationRecord { uid := "u1" }
      { userType := "jobSeeker", firstName := "Asha", lastName := "Perera",
        email := "asha@example.com" } 7 "j1"
      [("status", .str "accepted"), ("jobId", .str "other")]))
    { jobs := [{ plainJob "j1" 5 (some "Colombo") (some "full-time") with
                 applicationsCount := some 1 }],
      applications := [applicationRecord { uid := "u1" }
        { userType := "jobSeeker", firstName := "Asha", lastName := "Perera",
          email := "asha@example.com" } 7 "j1"
        [("status", .str "accepted"), ("jobId", .str "other")]] }
    "j1" [("status", .str "accepted"), ("jobId", .str "other")]
    (plainJob "j1" 5 (some "Colombo") (some "full-time")) modelStore_followsContract
    (by decide) (by decide) (by decide) (by decide) (by decide)
  ⟨h.1, h.2.2.2.2.1⟩

/-! ## C9: a load-more after a filter change -/

/-- C9, as stated, fails: after a fresh fetch under `location = "Colombo"` the state
holds the Colombo listing as cursor; `fetchJobs({ location: "Kandy" }, true)` then issues
a query that carries that cursor, and the result list is the old list extended with the
new page, not the new page alone. -/
theorem fetchJobs_loadMore_after_filter_change_extends :
    (fetchJobs (getDocs twoCityDb) Session.initial (locationFilter "Colombo") false).2.lastDoc
        = some (plainJob "a" 2 (some "Colombo") none)
      ∧ locationFilter "Kandy" ≠ locationFilter "Colombo"
      ∧ cursorOf (fetchConstraints (locationFilter "Kandy") true
          (fetchJobs (getDocs twoCityDb) Session.initial (locationFilter "Colombo")
            false).2.lastDoc)
          = some (plainJob "a" 2 (some "Colombo") none)
      ∧ (fetchJobs (getDocs twoCityDb)
          (fetchJobs (getDocs twoCityDb) Session.initial (locationFilter "Colombo") false).2
          (locationFilter "Kandy") true).1 = .ok [plainJob "b" 1 (some "Kandy") none]
      ∧ (fetchJobs (getDocs twoCityDb)
          (fetchJobs (getDocs twoCityDb) Session.initial (locationFilter "Colombo") false).2
          (locationFilter "Kandy") true).2.jobs
          = [plainJob "a" 2 (some "Colombo") none, plainJob "b" 1 (some "Kandy") none] := by
  decide

/-- C9, amended: `fetchJobs` keeps no record of the filters a cursor was obtained under.
In every state that holds a cursor, `fetchJobs(F', true)` issues the query of `F'` with
that cursor as its resume-after cursor and, when it succeeds, extends the result list
with the new page, whatever `F'` is.  A fetch is fresh when `loadMore` is false: its query
carries no cursor and, when it succeeds, the result list is replaced by the new page; the
search form's `handleSearch` with a blank term is such a fetch. -/
theorem fetchJobs_fresh_only_without_loadMore
    (getDocs : List Constraint → Except String (List Job)) (s : Session) (filters : Filters)
    (page : List Job) (s' : Session) :
    (∀ c, s.lastDoc = some c → fetchJobs getDocs s filters true = (.ok page, s') →
        cursorOf (fetchConstraints filters true s.lastDoc) = some c
          ∧ Constraint.startAfter c ∈ fetchConstraints filters true s.lastDoc
          ∧ s'.jobs = s.jobs ++ page)
      ∧ (fetchJobs getDocs s filters false = (.ok page, s') →
        cursorOf (fetchConstraints filters false s.lastDoc) = none
          ∧ (∀ d, Constraint.startAfter d ∉ fetchConstraints filters false s.lastDoc)
          ∧ s'.jobs = page)
      ∧ (∀ (toLowerCase : String → String) term, trimTruthy term = false →
        handleSearch toLowerCase getDocs s term filters
          = (fetchJobs getDocs s filters false).2) := by
  refine ⟨?_, ?_, ?_⟩
  · intro c hc h
    refine ⟨by rw [cursorOf_fetchConstraints, hc]; rfl, ?_, ?_⟩
    · rw [fetchConstraints_eq, hc]
      simp
    · unfold fetchJobs at h
      cases hq : getDocs (fetchConstraints filters true s.lastDoc) with
      | error e => simp [hq] at h
      | ok docs =>
        simp only [hq, Prod.mk.injEq, Except.ok.injEq] at h
        obtain ⟨hpage, hs⟩ := h
        subst hpage
        subst hs
        rfl
  · intro h
    refine ⟨by rw [cursorOf_fetchConstraints]; rfl, ?_, ?_⟩
    · intro d
      rw [fetchConstraints_eq]
      simp only [List.mem_cons, List.mem_append, not_or]
      unfold filterConstraint
      refine ⟨by simp, ?_, ?_, ?_, ?_, by simp, by simp, by simp⟩
      all_goals (split <;> [split; skip] <;> simp)
    · unfold fetchJobs at h
      cases hq : getDocs (fetchConstraints filters false s.lastDoc) with
      | error e => simp [hq] at h
      | ok docs =>
        simp only [hq, Prod.mk.injEq, Except.ok.injEq] at h
        obtain ⟨hpage, hs⟩ := h
        subst hpage
        subst hs
        rfl
  · intro toLowerCase term hterm
    unfold handleSearch
    simp [hterm]

/-- C9, amended, at the store with a Colombo and a Kandy listing: in the state left by
a fresh fetch under `location = "Colombo"`, the load-more under `location = "Kandy"`
carries the Colombo listing as cursor and extends the list, the fresh fetch under
`location = "Kandy"` replaces it. -/
theorem fetchJobs_fresh_only_without_loadMore_witness :
    (cursorOf (fetchConstraints (locationFilter "Kandy") true
        (fetchJobs (getDocs twoCityDb) Session.initial (locationFilter "Colombo")
          false).2.lastDoc) = some (plainJob "a" 2 (some "Colombo") none)
      ∧ Constraint.startAfter (plainJob "a" 2 (some "Colombo") none)
          ∈ fetchConstraints (locationFilter "Kandy") true
            (fetchJobs (getDocs twoCityDb) Session.initial (locationFilter "Colombo")
              false).2.lastDoc
      ∧ (fetchJobs (getDocs twoCityDb)
          (fetchJobs (getDocs twoCityDb) Session.initial (locationFilter "Colombo") false).2
          (locationFilter "Kandy") true).2.jobs
          = (fetchJobs (getDocs twoCityDb) Session.initial (locationFilter "Colombo")
              false).2.jobs ++ [plainJob "b" 1 (some "Kandy") none])
      ∧ (fetchJobs (getDocs twoCityDb)
          (fetchJobs (getDocs twoCityDb) Session.initial (locationFilter "Colombo") false).2
          (locationFilter "Kandy") false).2.jobs = [plainJob "b" 1 (some "Kandy") none] :=
  ⟨(fetchJobs_fresh_only_without_loadMore (getDocs twoCityDb)
      (fetchJobs (getDocs twoCityDb) Session.initial (locationFilter "Colombo") false).2
      (locationFilter "Kandy") [plainJob "b" 1 (some "Kandy") none]
      (fetchJobs (getDocs twoCityDb)
        (fetchJobs (getDocs twoCityDb) Session.initial (locationFilter "Colombo") false).2
        (locationFilter "Kandy") true).2).1
      (plainJob "a" 2 (some "Colombo") none) (by decide) (by decide),
   by decide⟩

/-! ## C10: fresh fetches -/

/-- C10: for every store content, every filter configuration and every prior state, a
second fresh fetch right after a fresh fetch returns the same ordered list and leaves the
same state (result list, cursor, `hasMore`, loading flag) as the first; the state's result
list is the page returned, built from the first 10 matching documents in the store's
order, whatever the result list held before. -/
theorem fetchJobs_fresh_idempotent (db : Db) (filters : Filters) (s : Session) :
    fetchJobs (getDocs db) (fetchJobs (getDocs db) s filters false).2 filters false
        = fetchJobs (getDocs db) s filters false
      ∧ (fetchJobs (getDocs db) s filters false).1
          = .ok (((matchingOrdered db filters).take 10).map toJobObject)
      ∧ (fetchJobs (getDocs db) s filters false).2.jobs
          = ((matchingOrdered db filters).take 10).map toJobObject
      ∧ (fetchJobs (getDocs db) s filters false).2.lastDoc
          = ((matchingOrdered db filters).take 10).getLast?
      ∧ (fetchJobs (getDocs db) s filters false).2.hasMore
          = decide (((matchingOrdered db filters).take 10).length = 10) := by
  have hfresh : ∀ ld, runQuery db.jobs (fetchConstraints filters false ld)
      = (matchingOrdered db filters).take 10 := by
    intro ld
    rw [runQuery_fetchConstraints]
    simp
  refine ⟨?_, ?_, ?_, ?_, ?_⟩
  · rw [fetchJobs_getDocs (s := (fetchJobs (getDocs db) s filters false).2),
      fetchJobs_getDocs, hfresh, hfresh]
    simp
  all_goals (rw [fetchJobs_getDocs, hfresh]; try simp)

end JobPortal
